/-
  Verification of the household-utility-dx repository.

  Two scripts are embedded:
    * src/extract_electric_bill.py  (namespace ExtractBill)
    * src/archive_desktop_images.py (namespace ArchiveDesktop)

  Modelling conventions:
    * Python `str` values travel either as Lean `String` or as `List Char`
      (one entry per Unicode code point, matching Python's indexing and
      slicing semantics).
    * Python's `json.loads` / `json.dumps` are standard-library collaborators,
      not repository code; they are taken as parameters (`jl`, `jsonDumps`).
      `json.loads` may return any JSON value, hence `Option JVal`.
    * Whitespace (`str.strip`, the regex class `\s`) is modelled by the ASCII
      whitespace set; the source is only ever exercised on such text.
    * Filesystem and network effects are passed in as explicit data
      (directory listings, per-file response oracles, move-success oracles).
-/
import Mathlib

set_option maxRecDepth 10000

/-- A JSON value as produced by Python's `json.loads`.  Objects are ordered
key/value lists, mirroring the insertion order of Python dicts.  Numbers are
modelled as integers (the claims never inspect numeric values). -/
inductive JVal where
  | null : JVal
  | bool (b : Bool) : JVal
  | num (n : Int) : JVal
  | str (s : String) : JVal
  | arr (xs : List JVal) : JVal
  | obj (fields : List (String × JVal)) : JVal

/-- A Python dict with string keys, in insertion order. -/
abbrev PyDict := List (String × JVal)

/-- Python dict assignment `d[k] = v`: overwrite in place if the key is
present, otherwise append at the end (insertion order is preserved). -/
def setKey : PyDict → String → JVal → PyDict
  | [], k, v => [(k, v)]
  | (k', v') :: rest, k, v =>
    if k' = k then (k, v) :: rest else (k', v') :: setKey rest k v

/-- Python dict lookup `d.get(k)`. -/
def getKey : PyDict → String → Option JVal
  | [], _ => none
  | (k', v') :: rest, k => if k' = k then some v' else getKey rest k

/-- Whether the dict has the key at all. -/
def hasKey (d : PyDict) (k : String) : Bool := (getKey d k).isSome

/-- The bookkeeping keys the extractor itself writes into records. -/
def metaKeys : List String := ["_file", "_raw", "_error"]

/-- A record "contains parsed data" when it has at least one key that is not
one of the extractor's bookkeeping keys. -/
def hasData (d : PyDict) : Bool := d.any (fun kv => !(metaKeys.contains kv.1))

/-- ASCII whitespace, as stripped by Python's `str.strip()` and matched by
the regex class `\s` (the Unicode extension is not modelled). -/
def isPySpace (c : Char) : Bool :=
  c = ' ' || c = '\t' || c = '\n' || c = '\r' || c = '\x0b' || c = '\x0c'

/-- Python `str.strip()` on a code-point list. -/
def pyStrip (s : List Char) : List Char :=
  ((s.dropWhile isPySpace).reverse.dropWhile isPySpace).reverse

/-- `startsWithL p s` : the list `p` is a prefix of `s`. -/
def startsWithL : List Char → List Char → Bool
  | [], _ => true
  | _ :: _, [] => false
  | p :: ps, x :: xs => p = x && startsWithL ps xs

/-- Index of the first occurrence of `pat` in `s` (leftmost match of a
literal pattern, as `re.search` finds it). -/
def occIdx (pat : List Char) (s : List Char) : Option Nat :=
  (List.range (s.length + 1)).find? (fun i => startsWithL pat (s.drop i))

/-- Index of the first occurrence of character `c`. -/
def firstIdxOf (c : Char) : List Char → Option Nat
  | [] => none
  | x :: xs => if x = c then some 0 else (firstIdxOf c xs).map (· + 1)

/-- Index of the last occurrence of character `c` (Python `str.rfind`). -/
def lastIdxOf (c : Char) (s : List Char) : Option Nat :=
  (firstIdxOf c s.reverse).map (fun k => s.length - 1 - k)

namespace ExtractBill

/-- The triple-backtick fence delimiter. -/
def fenceChars : List Char := "```".toList

/-- The literal `json` tag optionally following the opening fence. -/
def jsonTag : List Char := "json".toList

/-- The fenced-block arm of `extract_json_from_response`:
`re.search(r"```(?:json)?\s*([\s\S]*?)\s*```", text)` followed by
`.group(1).strip()`.  The leftmost match opens at the first occurrence of
three backticks; an immediately following literal `json` is consumed; the
lazy body ends at the next occurrence of three backticks; what `.strip()`
leaves of the enclosed text is returned.  `none` when there is no match. -/
def fencedContent (s : List Char) : Option (List Char) :=
  match occIdx fenceChars s with
  | none => none
  | some i =>
    let afterOpen := s.drop (i + 3)
    let body := if startsWithL jsonTag afterOpen then afterOpen.drop 4 else afterOpen
    match occIdx fenceChars body with
    | none => none
    | some k => some (pyStrip (body.take k))

/-- The fallback arm of `extract_json_from_response`:
`re.search(r"\{[\s\S]*\}", text).group(0)` — the leftmost-longest match runs
from the first `\x7b` to the last `\x7d` (which must lie strictly after it). -/
def braceSub (s : List Char) : Option (List Char) :=
  match firstIdxOf '\x7b' s, lastIdxOf '\x7d' s with
  | some i, some j => if i < j then some ((s.drop i).take (j + 1 - i)) else none
  | _, _ => none

/-- `json.loads` applied to the brace-delimited fallback substring;
`None` when there is no such substring or it fails to parse. -/
def braceAttempt (jl : List Char → Option JVal) (text : List Char) : Option JVal :=
  match braceSub text with
  | some b => jl b
  | none => none

/-- `extract_json_from_response` (src/extract_electric_bill.py:66-82):
try the fenced code block first; on absence or parse failure fall back to
the brace-delimited substring; `None` when both attempts fail. -/
def extract_json_from_response (jl : List Char → Option JVal) (text : List Char) :
    Option JVal :=
  match fencedContent text with
  | some c =>
    match jl c with
    | some v => some v
    | none => braceAttempt jl text
  | none => braceAttempt jl text

/-- Error record for an empty / missing model response
(src/extract_electric_bill.py:103). -/
def emptyRespRecord (name : String) : PyDict :=
  [("_file", JVal.str name), ("_error", JVal.str "空の応答")]

/-- Error record for a response from which no JSON could be extracted
(src/extract_electric_bill.py:107). -/
def parseFailRecord (name : String) (raw : List Char) : PyDict :=
  [("_file", JVal.str name),
   ("_raw", JVal.str (String.mk (raw.take 200))),
   ("_error", JVal.str "JSON 解析失敗")]

/-- `extract_from_image_path` from the point where the model response is in
hand (src/extract_electric_bill.py:101-109).  The decode and API call are
effects; their outcome arrives as `rt`: `none` models a falsy response or a
falsy `response.text`, `some t` the response text.  A raised exception
(e.g. the `TypeError` from `out["_file"] = ...` when `json.loads` produced a
non-dict) is an `Except.error`. -/
def extract_from_image_path (jl : List Char → Option JVal) (name : String)
    (rt : Option (List Char)) : Except String PyDict :=
  match rt with
  | none => Except.ok (emptyRespRecord name)
  | some t =>
    if t.isEmpty then Except.ok (emptyRespRecord name)
    else
      let raw := pyStrip t
      match extract_json_from_response jl raw with
      | none => Except.ok (parseFailRecord name raw)
      | some (JVal.obj fields) => Except.ok (setKey fields "_file" (JVal.str name))
      | some _ => Except.error "TypeError: オブジェクトではない JSON への項目代入"

/-- One iteration of the per-image loop in `main`
(src/extract_electric_bill.py:193-199).  `input` is the outcome of the
per-image pipeline up to the response: `Except.error e` models any exception
raised while decoding, calling the API, or building the record, which the
loop converts into an error record; otherwise the record built by
`extract_from_image_path` is appended. -/
def processImage (jl : List Char → Option JVal) (name : String)
    (input : Except String (Option (List Char))) : PyDict :=
  match input with
  | Except.error e => [("_file", JVal.str name), ("_error", JVal.str e)]
  | Except.ok rt =>
    match extract_from_image_path jl name rt with
    | Except.ok r => r
    | Except.error e => [("_file", JVal.str name), ("_error", JVal.str e)]

end ExtractBill

/-- One entry of a directory listing (`Path.iterdir()` is shallow: one entry
per direct child).  `isFile` is `Path.is_file()`; subdirectories and other
non-regular entries have `isFile = false`. -/
structure Entry where
  name : String
  isFile : Bool
deriving DecidableEq

/-- CPython `PurePath.suffix`: with `i = name.rfind('.')`, the slice
`name[i:]` when `0 < i < len(name) - 1`, otherwise the empty string. -/
def pySuffix (name : String) : String :=
  match lastIdxOf '.' name.data with
  | some i =>
    if 0 < i ∧ i + 1 < name.data.length then String.mk (name.data.drop i) else ""
  | none => ""

/-- CPython `PurePath.stem`: the name with `pySuffix` removed. -/
def pyStem (name : String) : String :=
  match lastIdxOf '.' name.data with
  | some i =>
    if 0 < i ∧ i + 1 < name.data.length then String.mk (name.data.take i) else name
  | none => name

/-- Python `str.lower()`, modelled on the ASCII range (file extensions are
ASCII). -/
def lowerStr (s : String) : String := String.mk (s.data.map Char.toLower)

/-- Lexicographic ≤ on code-point lists. -/
def charListLe : List Char → List Char → Bool
  | [], _ => true
  | _ :: _, [] => false
  | x :: xs, y :: ys =>
    if x.toNat < y.toNat then true
    else if y.toNat < x.toNat then false
    else charListLe xs ys

/-- Python's `str` comparison: code-point lexicographic order. -/
def strLeB (a b : String) : Bool := charListLe a.data b.data

/-- Insert into a `strLeB`-sorted list of strings, keeping it sorted. -/
def insertSorted (x : String) : List String → List String
  | [] => [x]
  | y :: ys => if strLeB x y then x :: y :: ys else y :: insertSorted x ys

/-- `list.sort(key=lambda p: p.name)`: sort names ascending in Python's
code-point string order. -/
def insertionSort : List String → List String
  | [] => []
  | x :: xs => insertSorted x (insertionSort xs)

namespace ExtractBill

/-- `IMAGE_EXTENSIONS` of src/extract_electric_bill.py:40.  The source keeps
a `set`; only membership and (for one diagnostic) the joined text are used,
and the model fixes the literal's order. -/
def IMAGE_EXTENSIONS : List String := [".png", ".jpg", ".jpeg", ".heic", ".heif"]

/-- The matching predicate of the scan (src/extract_electric_bill.py:171-174):
a regular file whose lowercased suffix is a configured image extension. -/
def isImageEntry (e : Entry) : Bool :=
  e.isFile && IMAGE_EXTENSIONS.contains (lowerStr (pySuffix e.name))

/-- The scanned image names: matching entries, sorted by filename
(`image_paths.sort(key=lambda p: p.name)`). -/
def imagePaths (entries : List Entry) : List String :=
  insertionSort ((entries.filter isImageEntry).map Entry.name)

/-- `', '.join(...)` over the extension list. -/
def joinCommaSpace : List String → String
  | [] => ""
  | [s] => s
  | s :: rest => s ++ ", " ++ joinCommaSpace rest

/-- Diagnostic for a missing credential (src/extract_electric_bill.py:144). -/
def apiKeyErrMsg : String :=
  "エラー: API キーがありません。--api-key を指定するか GEMINI_API_KEY を設定してください。"

/-- Diagnostic for the missing client library (src/extract_electric_bill.py:148). -/
def libErrMsg : String :=
  "エラー: google-generativeai がインストールされていません。pip install google-generativeai"

/-- Diagnostic for a missing/invalid target directory (src/extract_electric_bill.py:168). -/
def dirErrMsg (folder : String) : String :=
  "エラー: フォルダが見つかりません: " ++ folder

/-- Diagnostic when no matching image is found (src/extract_electric_bill.py:178);
it names the expected extensions. -/
def noImagesErrMsg (folder : String) : String :=
  "エラー: 画像ファイル（" ++ joinCommaSpace IMAGE_EXTENSIONS ++ "）がありません: " ++ folder

/-- Diagnostic for an unresolvable model name (src/extract_electric_bill.py:189). -/
def modelErrMsg (modelName e : String) : String :=
  "エラー: モデル '" ++ modelName ++ "' が見つかりません: " ++ e

/-- The hint line following the model diagnostic (src/extract_electric_bill.py:190). -/
def modelHintMsg : String :=
  "ヒント: --list-models で利用可能なモデルを確認できます"

/-- Diagnostic when the model listing fails (src/extract_electric_bill.py:163). -/
def listModelsErrMsg (e : String) : String :=
  "エラー: モデル一覧の取得に失敗しました: " ++ e

/-- Confirmation after persisting the output file (src/extract_electric_bill.py:206). -/
def savedMsg (path : String) : String := "\n→ 保存しました: " ++ path

/-- `model_name.replace("models/", "", 1)` guarded by
`model_name.startswith("models/")` (src/extract_electric_bill.py:183-184):
drop the 7-character prefix when present. -/
def stripModelsPfx (modelName : String) : String :=
  if startsWithL "models/".toList modelName.data
  then String.mk (modelName.data.drop 7) else modelName

/-- Parsed command line of the Bill Extractor. -/
structure BillArgs where
  folder : String
  apiKeyFlag : Option String
  envKey : Option String
  model : String
  listModels : Bool
  output : Option String

/-- The external world one run observes: whether `google.generativeai`
imported, the target-directory listing (`none` when `folder.is_dir()` is
false), the outcome of `genai.GenerativeModel`, the per-image pipeline up to
the response text, and the model-listing call. -/
structure BillWorld where
  genaiAvailable : Bool
  dirListing : Option (List Entry)
  modelCtor : String → Except String Unit
  responses : String → Except String (Option (List Char))
  listModelsRes : Except String (List String)

/-- Observable outcome of a run of the Bill Extractor's `main`. -/
structure BillOut where
  exitCode : Nat
  stderr : List String
  stdout : List String
  fileWritten : Option (String × String)
  processedImages : List String

/-- `args.api_key` after argparse defaulting: the flag value when given,
else the environment variable.  Python truthiness rejects both absence and
the empty string. -/
def resolvedKey (args : BillArgs) : Option String := args.apiKeyFlag <|> args.envKey

/-- Truthiness of the resolved credential. -/
def keyTruthy (args : BillArgs) : Bool :=
  match resolvedKey args with
  | none => false
  | some s => !s.isEmpty

/-- `main` of src/extract_electric_bill.py:112-208 as a function of the
parsed arguments and the external world.  `jl` is `json.loads`;
`jsonDumps ensureAscii indent results` is `json.dumps(results, ...)` (the
source passes `ensure_ascii=False, indent=2`). -/
def mainRun (jl : List Char → Option JVal)
    (jsonDumps : Bool → Nat → List PyDict → String)
    (args : BillArgs) (w : BillWorld) : BillOut :=
  if !keyTruthy args then
    ⟨1, [apiKeyErrMsg], [], none, []⟩
  else if !w.genaiAvailable then
    ⟨1, [libErrMsg], [], none, []⟩
  else if args.listModels then
    match w.listModelsRes with
    | Except.ok names =>
      ⟨0, [], ("利用可能な Gemini モデル:\n" :: names.map (fun n => "  " ++ n)), none, []⟩
    | Except.error e => ⟨1, [listModelsErrMsg e], [], none, []⟩
  else
    match w.dirListing with
    | none => ⟨1, [dirErrMsg args.folder], [], none, []⟩
    | some entries =>
      let imgs := imagePaths entries
      if imgs.isEmpty then
        ⟨1, [noImagesErrMsg args.folder], [], none, []⟩
      else
        let modelName := stripModelsPfx args.model
        match w.modelCtor modelName with
        | Except.error e => ⟨1, [modelErrMsg modelName e, modelHintMsg], [], none, []⟩
        | Except.ok _ =>
          let results := imgs.map (fun n => processImage jl n (w.responses n))
          let jsonStr := jsonDumps false 2 results
          match args.output with
          | none => ⟨0, [], [jsonStr], none, imgs⟩
          | some o => ⟨0, [savedMsg o], [jsonStr], some (o, jsonStr), imgs⟩

end ExtractBill

/-- Little-endian decimal digits of `n`, with enough fuel (`fuel ≥ n` plus
one step) to complete. -/
def digitsRev : Nat → Nat → List Nat
  | 0, _ => []
  | fuel + 1, n => if n < 10 then [n] else n % 10 :: digitsRev fuel (n / 10)

/-- Python `str(n)` for a natural number: its decimal representation. -/
def decRepr (n : Nat) : String :=
  String.mk ((digitsRev (n + 1) n).reverse.map Nat.digitChar)

namespace ArchiveDesktop

/-- `IMAGE_EXTENSIONS` of src/archive_desktop_images.py:20. -/
def IMAGE_EXTENSIONS : List String := [".png", ".jpg", ".jpeg"]

/-- The archiver's matching predicate (src/archive_desktop_images.py:46-48):
a regular file whose lowercased suffix is in the extension set. -/
def matchesArchive (e : Entry) : Bool :=
  e.isFile && IMAGE_EXTENSIONS.contains (lowerStr (pySuffix e.name))

/-- The `n`-th collision candidate `f"{stem}_{n}{suffix}"`
(src/archive_desktop_images.py:55). -/
def candName (stem suffix : String) (n : Nat) : String :=
  stem ++ "_" ++ decRepr n ++ suffix

end ArchiveDesktop

namespace ArchiveDesktop

/-- Value of a little-endian digit list. -/
def valOfRev : List Nat → Nat
  | [] => 0
  | d :: ds => d + 10 * valOfRev ds

theorem valOfRev_digitsRev : ∀ (fuel n : Nat), n ≤ fuel →
    valOfRev (digitsRev (fuel + 1) n) = n := by
  intro fuel
  induction fuel with
  | zero =>
    intro n hn
    have : n = 0 := Nat.le_zero.mp hn
    subst this
    simp [digitsRev, valOfRev]
  | succ f ih =>
    intro n hn
    by_cases h : n < 10
    · simp [digitsRev, h, valOfRev]
    · have hrw : digitsRev (f + 1 + 1) n = n % 10 :: digitsRev (f + 1) (n / 10) := by
        simp [digitsRev, h]
      rw [hrw, valOfRev, ih (n / 10) (by omega)]
      omega

theorem digitsRev_lt : ∀ (fuel n : Nat), ∀ d ∈ digitsRev fuel n, d < 10 := by
  intro fuel
  induction fuel with
  | zero => intro n d hd; simp [digitsRev] at hd
  | succ f ih =>
    intro n d hd
    by_cases h : n < 10
    · simp [digitsRev, h] at hd
      omega
    · simp [digitsRev, h] at hd
      rcases hd with h1 | h2
      · omega
      · exact ih _ _ h2

theorem digitChar_inj_lt : ∀ a < 10, ∀ b < 10,
    Nat.digitChar a = Nat.digitChar b → a = b := by decide

theorem map_digitChar_inj : ∀ (a b : List Nat), (∀ d ∈ a, d < 10) → (∀ d ∈ b, d < 10) →
    a.map Nat.digitChar = b.map Nat.digitChar → a = b := by
  intro a
  induction a with
  | nil =>
    intro b _ _ h
    cases b with
    | nil => rfl
    | cons y ys => simp at h
  | cons x xs ih =>
    intro b ha hb h
    cases b with
    | nil => simp at h
    | cons y ys =>
      simp only [List.map_cons, List.cons.injEq] at h
      have hx := digitChar_inj_lt x (ha x (by simp)) y (hb y (by simp)) h.1
      have hxs := ih ys (fun d hd => ha d (by simp [hd])) (fun d hd => hb d (by simp [hd])) h.2
      rw [hx, hxs]

theorem decRepr_inj : ∀ (m n : Nat), decRepr m = decRepr n → m = n := by
  intro m n h
  have hdata : (digitsRev (m + 1) m).reverse.map Nat.digitChar
      = (digitsRev (n + 1) n).reverse.map Nat.digitChar := by
    have := congrArg String.data h
    simpa [decRepr] using this
  have hrev := map_digitChar_inj _ _
    (fun d hd => digitsRev_lt _ _ d (List.mem_reverse.mp hd))
    (fun d hd => digitsRev_lt _ _ d (List.mem_reverse.mp hd)) hdata
  have hdig : digitsRev (m + 1) m = digitsRev (n + 1) n := by
    have := congrArg List.reverse hrev
    simpa using this
  have hm := valOfRev_digitsRev m m le_rfl
  rw [hdig, valOfRev_digitsRev n n le_rfl] at hm
  omega

theorem candName_inj (stem suffix : String) :
    ∀ m n, candName stem suffix m = candName stem suffix n → m = n := by
  intro m n h
  apply decRepr_inj
  have hd := congrArg String.data h
  simp only [candName, String.data_append, List.append_assoc] at hd
  have h1 := List.append_cancel_left hd
  have h2 := List.append_cancel_left h1
  exact String.ext (List.append_cancel_right h2)

/-- The collision loop always escapes: some numbered candidate is not among
the finitely many existing names. -/
theorem exists_free_cand (existing : List String) (stem suffix : String) :
    ∃ k, candName stem suffix (k + 1) ∉ existing := by
  by_contra hc
  push_neg at hc
  have hinj : Set.InjOn (fun k => candName stem suffix (k + 1))
      ↑(Finset.range (existing.length + 1)) := by
    intro a _ b _ hab
    have := candName_inj stem suffix (a + 1) (b + 1) hab
    omega
  have hmaps : ∀ a ∈ Finset.range (existing.length + 1),
      candName stem suffix (a + 1) ∈ existing.toFinset := by
    intro a _
    exact List.mem_toFinset.mpr (hc a)
  have hcard := Finset.card_le_card_of_injOn _ hmaps hinj
  rw [Finset.card_range] at hcard
  have hle := existing.toFinset_card_le
  omega

/-- The destination name the archiver picks for one file
(src/archive_desktop_images.py:49-56): the file's own name when it is free
in the archive folder, otherwise the first free numbered candidate,
counting from 1. -/
def chooseDestName (existing : List String) (name stem suffix : String) : String :=
  if name ∈ existing then
    candName stem suffix (Nat.find (exists_free_cand existing stem suffix) + 1)
  else name

end ArchiveDesktop

namespace ArchiveDesktop

/-- The archiver's running state while it iterates over the desktop:
`existing` is the set of names currently present in the dated archive
folder (initial contents plus files moved so far), together with the
observable outcomes. -/
structure ArchState where
  existing : List String
  moves : List (String × String)
  failures : List String
  movedCount : Nat
  log : List String

/-- One iteration of the archiver's loop (src/archive_desktop_images.py:45-62).
Non-files and non-matching extensions are skipped; otherwise a destination
name is chosen, and `moveRes` reports whether `shutil.move` succeeded or
raised an `OSError` (caught, logged; the destination is then not created). -/
def archStep (archiveName : String) (moveRes : String → String → Except String Unit)
    (st : ArchState) (e : Entry) : ArchState :=
  if !e.isFile then st
  else if IMAGE_EXTENSIONS.contains (lowerStr (pySuffix e.name)) then
    let dest := chooseDestName st.existing e.name (pyStem e.name) (pySuffix e.name)
    match moveRes e.name dest with
    | Except.ok _ =>
      ⟨st.existing ++ [dest], st.moves ++ [(e.name, dest)], st.failures,
       st.movedCount + 1,
       st.log ++ ["移動: " ++ e.name ++ " → Inspiration_Vault/" ++ archiveName ++ "/"]⟩
    | Except.error err =>
      ⟨st.existing, st.moves, st.failures ++ [e.name], st.movedCount,
       st.log ++ ["失敗: " ++ e.name ++ " - " ++ err]⟩
  else st

/-- `get_archive_folder_name` (src/archive_desktop_images.py:29-31): the
dated folder name, a pure function of the formatted current date. -/
def archiveFolderName (date : String) : String := "Archive_" ++ date

/-- Observable outcome of a run of the archiver's `main`. -/
structure ArchOut where
  exitCode : Nat
  moves : List (String × String)
  failures : List String
  movedCount : Nat
  stdout : List String

/-- `main` of src/archive_desktop_images.py:33-68 as a function of the
external world: whether the desktop directory exists, its shallow listing,
the initial contents of the dated archive folder, the formatted date, and
the per-move outcome. -/
def archiverRun (desktopExists : Bool) (desktopEntries : List Entry)
    (archiveExisting : List String) (date : String)
    (moveRes : String → String → Except String Unit) : ArchOut :=
  if !desktopExists then
    ⟨1, [], [], 0, ["エラー: デスクトップが見つかりません (/Users/kana/Desktop)"]⟩
  else
    let archiveName := archiveFolderName date
    let final := desktopEntries.foldl (archStep archiveName moveRes)
      ⟨archiveExisting, [], [], 0, []⟩
    let summary :=
      if final.movedCount = 0 then
        "移動する画像はありませんでした。（Inspiration_Vault/" ++ archiveName ++ " は用意済み）"
      else
        "完了: " ++ decRepr final.movedCount ++ " 件を Inspiration_Vault/" ++ archiveName
          ++ " に移動しました。"
    ⟨0, final.moves, final.failures, final.movedCount, final.log ++ [summary]⟩

end ArchiveDesktop

/-- A concrete stand-in for `json.loads` that recognises the object text
`\x7b"a":1\x7d` (used to exercise the parser on closed inputs). -/
def sampleLoads : List Char → Option JVal := fun c =>
  if c = "\x7b\"a\":1\x7d".toList then some (JVal.obj [("a", JVal.num 1)]) else none

/-- A stand-in for `json.loads` returning an object that itself carries an
`_error` key next to a data field — legal JSON the model could emit. -/
def dataAndErrorLoads : List Char → Option JVal := fun c =>
  if c = "\x7b\x7d".toList then
    some (JVal.obj [("使用量_kWh", JVal.num 5), ("_error", JVal.str "x")])
  else none

/-- A stand-in for `json.loads` returning an object that tries to smuggle
its own `_file` key. -/
def spoofFileLoads : List Char → Option JVal := fun c =>
  if c = "\x7b\x7d".toList then
    some (JVal.obj [("_file", JVal.str "spoof.png"), ("a", JVal.num 1)])
  else none

/-- A stand-in for `json.loads` that never parses anything. -/
def failLoads : List Char → Option JVal := fun _ => none

/-- A stand-in for `json.dumps` used to close witnesses. -/
def sampleDumps : Bool → Nat → List PyDict → String := fun _ _ rs =>
  "records:" ++ decRepr rs.length

/- ------------------------------------------------------------------ -/
/-  Helper lemmas                                                      -/
/- ------------------------------------------------------------------ -/

theorem getKey_setKey_self (d : PyDict) (k : String) (v : JVal) :
    getKey (setKey d k v) k = some v := by
  induction d with
  | nil => simp [setKey, getKey]
  | cons kv rest ih =>
    by_cases h : kv.1 = k
    · simp [setKey, h, getKey]
    · simp [setKey, h, getKey, ih]

theorem getKey_setKey_ne (d : PyDict) (k k' : String) (v : JVal) (h : ¬ k' = k) :
    getKey (setKey d k v) k' = getKey d k' := by
  have h' : ¬ k = k' := fun he => h he.symm
  induction d with
  | nil => simp [setKey, getKey, h']
  | cons kv rest ih =>
    by_cases hk : kv.1 = k
    · simp [setKey, hk, getKey, h']
    · by_cases hk' : kv.1 = k'
      · simp [setKey, hk, getKey, hk', h]
      · simp [setKey, hk, getKey, hk', ih]

theorem firstIdxOf_not_head (c x : Char) (l : List Char) (hx : ¬ x = c) :
    firstIdxOf c (x :: l) = (firstIdxOf c l).map (· + 1) := by
  simp [firstIdxOf, hx]

theorem firstIdxOf_append_not_mem (c : Char) (p r : List Char) (hp : c ∉ p) :
    firstIdxOf c (p ++ r) = (firstIdxOf c r).map (fun k => k + p.length) := by
  induction p with
  | nil =>
    simp only [List.nil_append, List.length_nil]
    cases firstIdxOf c r <;> simp
  | cons x xs ih =>
    have hx : ¬ x = c := fun h => hp (by simp [h])
    have hxs : c ∉ xs := fun h => hp (by simp [h])
    rw [List.cons_append, firstIdxOf_not_head c x (xs ++ r) hx, ih hxs]
    cases firstIdxOf c r with
    | none => rfl
    | some val =>
      have hv : val + xs.length + 1 = val + (xs.length + 1) := by omega
      simp [hv]

theorem firstIdxOf_cons_self (c : Char) (r : List Char) :
    firstIdxOf c (c :: r) = some 0 := by
  simp [firstIdxOf]

theorem head_reverse_getLast (l : List Char) : l.reverse.head? = l.getLast? := by
  cases h : l.reverse with
  | nil =>
    have : l = [] := by simpa using congrArg List.reverse h
    simp [this]
  | cons x xs =>
    have : l = (x :: xs).reverse := by
      have := congrArg List.reverse h
      simpa using this
    rw [this]
    simp [List.getLast?_reverse]

theorem braceSub_of_shape (p b q : List Char)
    (hp : '\x7b' ∉ p) (hq : '\x7d' ∉ q)
    (hhead : b.head? = some '\x7b') (hlast : b.getLast? = some '\x7d') :
    ExtractBill.braceSub (p ++ b ++ q) = some b := by
  obtain ⟨tb, rfl⟩ : ∃ tb, b = '\x7b' :: tb := by
    cases b with
    | nil => simp at hhead
    | cons x xs =>
      simp only [List.head?_cons, Option.some.injEq] at hhead
      exact ⟨xs, by rw [hhead]⟩
  have htb : tb ≠ [] := by
    intro h
    rw [h] at hlast
    simp [List.getLast?] at hlast
  have htblen : 1 ≤ tb.length := List.length_pos.mpr htb
  have hfirst : firstIdxOf '\x7b' (p ++ ('\x7b' :: tb) ++ q) = some p.length := by
    rw [List.append_assoc, firstIdxOf_append_not_mem _ _ _ hp, List.cons_append,
      firstIdxOf_cons_self]
    simp
  obtain ⟨rb, hrb⟩ : ∃ rb, ('\x7b' :: tb).reverse = '\x7d' :: rb := by
    cases h : ('\x7b' :: tb).reverse with
    | nil => simp at h
    | cons x xs =>
      have hx : (x :: xs).head? = some '\x7d' := by
        rw [← h, head_reverse_getLast, hlast]
      simp only [List.head?_cons, Option.some.injEq] at hx
      exact ⟨xs, by rw [hx]⟩
  have hlen : (p ++ ('\x7b' :: tb) ++ q).length = p.length + tb.length + 1 + q.length := by
    simp [List.length_append]
    omega
  have hlast' : lastIdxOf '\x7d' (p ++ ('\x7b' :: tb) ++ q) = some (p.length + tb.length) := by
    unfold lastIdxOf
    have hrev : (p ++ ('\x7b' :: tb) ++ q).reverse
        = q.reverse ++ (('\x7b' :: tb).reverse ++ p.reverse) := by
      simp [List.reverse_append]
    rw [hrev, firstIdxOf_append_not_mem _ _ _ (by simpa using hq), hrb,
      List.cons_append, firstIdxOf_cons_self]
    simp [hlen]
    omega
  unfold ExtractBill.braceSub
  rw [hfirst, hlast']
  have hcond : p.length < p.length + tb.length := by omega
  dsimp only
  rw [if_pos hcond]
  have hdrop : (p ++ ('\x7b' :: tb) ++ q).drop p.length = ('\x7b' :: tb) ++ q := by
    rw [List.append_assoc]
    exact List.drop_left p (('\x7b' :: tb) ++ q)
  have htake : (p.length + tb.length + 1 - p.length) = ('\x7b' :: tb).length := by
    simp
    omega
  rw [hdrop, htake, List.take_left]

/- ------------------------------------------------------------------ -/
/-  Claim theorems                                                     -/
/- ------------------------------------------------------------------ -/

open ExtractBill in
/-- C1: `extract_json_from_response` first tries the fenced code block
(``` or ```json) and parses its stripped contents; if no fenced block is
present, or its contents fail to parse, it falls back to the leftmost
brace-delimited substring; it returns the first successfully parsed object
and `None` when both attempts fail.  A response whose sole brace-delimited
chunk parses is handled by the fallback, which returns exactly that chunk's
object. -/
theorem C1_extract_json_from_response_strategy
    (jl : List Char → Option JVal) (text : List Char) :
    (∀ c v, fencedContent text = some c → jl c = some v →
      extract_json_from_response jl text = some v) ∧
    ((fencedContent text = none ∨ ∃ c, fencedContent text = some c ∧ jl c = none) →
      ∀ b v, braceSub text = some b → jl b = some v →
      extract_json_from_response jl text = some v) ∧
    ((fencedContent text = none ∨ ∃ c, fencedContent text = some c ∧ jl c = none) →
      (braceSub text = none ∨ ∃ b, braceSub text = some b ∧ jl b = none) →
      extract_json_from_response jl text = none) ∧
    (∀ p b q, text = p ++ b ++ q → '\x7b' ∉ p → '\x7d' ∉ q →
      b.head? = some '\x7b' → b.getLast? = some '\x7d' →
      braceSub text = some b) := by
  refine ⟨?_, ?_, ?_, ?_⟩
  · intro c v hf hv
    simp [extract_json_from_response, hf, hv]
  · rintro (hf | ⟨c, hf, hc⟩) b v hb hv
    · simp [extract_json_from_response, hf, braceAttempt, hb, hv]
    · simp [extract_json_from_response, hf, hc, braceAttempt, hb, hv]
  · rintro (hf | ⟨c, hf, hc⟩) (hb | ⟨b, hb, hbn⟩) <;>
      simp [extract_json_from_response, braceAttempt, *]
  · intro p b q htext hp hq hh hl
    rw [htext]
    exact braceSub_of_shape p b q hp hq hh hl

/-- Witness for C1: on the spec's own scenario (a response that is exactly a
fenced JSON block) the fenced arm returns the parsed object; on a response
holding only a bare brace-delimited chunk the fallback returns it. -/
theorem C1_extract_json_from_response_strategy_witness :
    ExtractBill.extract_json_from_response sampleLoads "```json\n\x7b\"a\":1\x7d\n```".toList
      = some (JVal.obj [("a", JVal.num 1)]) ∧
    ExtractBill.extract_json_from_response sampleLoads "answer: \x7b\"a\":1\x7d ok".toList
      = some (JVal.obj [("a", JVal.num 1)]) ∧
    ExtractBill.extract_json_from_response sampleLoads "no json here".toList = none := by
  refine ⟨?_, ?_, ?_⟩
  · exact (C1_extract_json_from_response_strategy sampleLoads
      "```json\n\x7b\"a\":1\x7d\n```".toList).1
      "\x7b\"a\":1\x7d".toList (JVal.obj [("a", JVal.num 1)]) (by decide) (by rfl)
  · exact (C1_extract_json_from_response_strategy sampleLoads
      "answer: \x7b\"a\":1\x7d ok".toList).2.1
      (Or.inl (by decide)) "\x7b\"a\":1\x7d".toList (JVal.obj [("a", JVal.num 1)])
      (by decide) (by rfl)
  · exact (C1_extract_json_from_response_strategy sampleLoads "no json here".toList).2.2.1
      (Or.inl (by decide)) (Or.inl (by decide))

/-- C3 counterexample: the claim "a record either contains the parsed fields
without an `_error` key, or contains an `_error` key without parsed data —
never both" fails as stated: when the model's own JSON object carries an
`_error` key next to a data field, the success path returns both. -/
theorem C3_exactly_one_counterexample :
    hasKey (ExtractBill.processImage dataAndErrorLoads "a.png"
      (Except.ok (some "\x7b\x7d".toList))) "_error" = true ∧
    hasData (ExtractBill.processImage dataAndErrorLoads "a.png"
      (Except.ok (some "\x7b\x7d".toList))) = true := ⟨rfl, rfl⟩

open ExtractBill in
/-- C3 (amended): every extraction record carries the source filename under
`_file`.  Records from the exception handler, the empty-response path and
the parse-failure path carry an `_error` key and no parsed data.  A
successful record consists of the parsed object's fields plus `_file`, and
carries an `_error` key only when the model's own object already did. -/
theorem C3_record_discipline_amended (jl : List Char → Option JVal)
    (name : String) (input : Except String (Option (List Char))) :
    getKey (processImage jl name input) "_file" = some (JVal.str name) ∧
    (∀ e, input = Except.error e →
      processImage jl name input = [("_file", JVal.str name), ("_error", JVal.str e)] ∧
      hasKey (processImage jl name input) "_error" = true ∧
      hasData (processImage jl name input) = false) ∧
    (∀ rt, input = Except.ok rt → (rt = none ∨ rt = some []) →
      processImage jl name input = emptyRespRecord name ∧
      hasKey (processImage jl name input) "_error" = true ∧
      hasData (processImage jl name input) = false) ∧
    (∀ t, input = Except.ok (some t) → t.isEmpty = false →
      extract_json_from_response jl (pyStrip t) = none →
      processImage jl name input = parseFailRecord name (pyStrip t) ∧
      hasKey (processImage jl name input) "_error" = true ∧
      hasData (processImage jl name input) = false) ∧
    (∀ t fields, input = Except.ok (some t) → t.isEmpty = false →
      extract_json_from_response jl (pyStrip t) = some (JVal.obj fields) →
      processImage jl name input = setKey fields "_file" (JVal.str name) ∧
      (hasKey fields "_error" = false →
        hasKey (processImage jl name input) "_error" = false)) := by
  refine ⟨?_, ?_, ?_, ?_, ?_⟩
  · cases input with
    | error e => simp [processImage, getKey]
    | ok rt =>
      cases rt with
      | none => simp [processImage, extract_from_image_path, emptyRespRecord, getKey]
      | some t =>
        by_cases ht : t.isEmpty
        · simp [processImage, extract_from_image_path, ht, emptyRespRecord, getKey]
        · cases hx : extract_json_from_response jl (pyStrip t) with
          | none =>
            simp [processImage, extract_from_image_path, ht, hx, parseFailRecord, getKey]
          | some v =>
            cases v with
            | obj fields =>
              simp [processImage, extract_from_image_path, ht, hx, getKey_setKey_self]
            | null => simp [processImage, extract_from_image_path, ht, hx, getKey]
            | bool b => simp [processImage, extract_from_image_path, ht, hx, getKey]
            | num n => simp [processImage, extract_from_image_path, ht, hx, getKey]
            | str s => simp [processImage, extract_from_image_path, ht, hx, getKey]
            | arr xs => simp [processImage, extract_from_image_path, ht, hx, getKey]
  · rintro e rfl
    exact ⟨rfl, rfl, rfl⟩
  · rintro rt rfl (rfl | rfl)
    · exact ⟨rfl, rfl, rfl⟩
    · exact ⟨rfl, rfl, rfl⟩
  · rintro t rfl ht hx
    refine ⟨?_, ?_, ?_⟩ <;>
      simp [processImage, extract_from_image_path, ht, hx, parseFailRecord,
        hasKey, hasData, getKey, metaKeys]
  · rintro t fields rfl ht hx
    have hrec : processImage jl name (Except.ok (some t))
        = setKey fields "_file" (JVal.str name) := by
      simp [processImage, extract_from_image_path, ht, hx]
    refine ⟨hrec, ?_⟩
    intro hferr
    rw [hrec]
    unfold hasKey
    rw [getKey_setKey_ne fields "_file" "_error" (JVal.str name) (by decide)]
    exact hferr

/-- Witness for C3 (amended): a concrete successful record carries the
actual filename, and a concrete exception becomes an error record. -/
theorem C3_record_discipline_amended_witness :
    getKey (ExtractBill.processImage sampleLoads "bill.png"
      (Except.ok (some "\x7b\"a\":1\x7d".toList))) "_file"
      = some (JVal.str "bill.png") ∧
    ExtractBill.processImage failLoads "err.png" (Except.error "boom")
      = [("_file", JVal.str "err.png"), ("_error", JVal.str "boom")] := by
  constructor
  · exact (C3_record_discipline_amended sampleLoads "bill.png"
      (Except.ok (some "\x7b\"a\":1\x7d".toList))).1
  · exact ((C3_record_discipline_amended failLoads "err.png"
      (Except.error "boom")).2.1 "boom" rfl).1

/-- C4 counterexample: for an empty model response the claim says the error
record carries a truncated snippet of the raw response; the code's
empty-response record has no `_raw` key at all. -/
theorem C4_snippet_counterexample :
    ExtractBill.processImage failLoads "a.png" (Except.ok none)
      = ExtractBill.emptyRespRecord "a.png" ∧
    hasKey (ExtractBill.processImage failLoads "a.png" (Except.ok none)) "_raw"
      = false := ⟨rfl, rfl⟩

open ExtractBill in
/-- C4 (amended): an empty response yields an error record carrying the
filename and an error tag (and no raw snippet); a response from which no
JSON can be extracted yields an error record carrying the filename, a
truncated snippet of the raw response of length at most 200 characters, and
an error tag. -/
theorem C4_error_records_amended (jl : List Char → Option JVal) (name : String) :
    (processImage jl name (Except.ok none) = emptyRespRecord name) ∧
    (∀ t, t.isEmpty = true → processImage jl name (Except.ok (some t)) = emptyRespRecord name) ∧
    (getKey (emptyRespRecord name) "_file" = some (JVal.str name) ∧
      getKey (emptyRespRecord name) "_error" = some (JVal.str "空の応答") ∧
      hasKey (emptyRespRecord name) "_raw" = false) ∧
    (∀ t, t.isEmpty = false → extract_json_from_response jl (pyStrip t) = none →
      processImage jl name (Except.ok (some t)) = parseFailRecord name (pyStrip t)) ∧
    (∀ raw, getKey (parseFailRecord name raw) "_file" = some (JVal.str name) ∧
      getKey (parseFailRecord name raw) "_raw"
        = some (JVal.str (String.mk (raw.take 200))) ∧
      (String.mk (raw.take 200)).length ≤ 200 ∧
      getKey (parseFailRecord name raw) "_error" = some (JVal.str "JSON 解析失敗")) := by
  refine ⟨rfl, ?_, ⟨rfl, rfl, rfl⟩, ?_, ?_⟩
  · intro t ht
    have : t = [] := by
      cases t with
      | nil => rfl
      | cons x xs => simp [List.isEmpty] at ht
    rw [this]
    rfl
  · intro t ht hx
    simp [processImage, extract_from_image_path, ht, hx]
  · intro raw
    refine ⟨rfl, rfl, ?_, rfl⟩
    have : (raw.take 200).length ≤ 200 := by
      rw [List.length_take]
      exact Nat.min_le_left _ _
    simp [String.length, this]

/-- Witness for C4 (amended): a concrete unparseable response yields the
parse-failure record. -/
theorem C4_error_records_amended_witness :
    ExtractBill.processImage failLoads "a.png" (Except.ok (some "junk".toList))
      = ExtractBill.parseFailRecord "a.png" (pyStrip "junk".toList) ∧
    getKey (ExtractBill.parseFailRecord "a.png" (pyStrip "junk".toList)) "_raw"
      = some (JVal.str (String.mk ((pyStrip "junk".toList).take 200))) := by
  constructor
  · exact (C4_error_records_amended failLoads "a.png").2.2.2.1 "junk".toList rfl rfl
  · exact ((C4_error_records_amended failLoads "a.png").2.2.2.2 (pyStrip "junk".toList)).2.1

open ExtractBill in
/-- C10: on every successful extraction the `_file` key of the returned
record is the actual source filename: the assignment after parsing
overwrites any `_file` key the model's own object may have carried, so a
spoofed value never reaches the output. -/
theorem C10_file_key_overwritten (jl : List Char → Option JVal) (name : String)
    (t : List Char) (fields : List (String × JVal))
    (ht : t.isEmpty = false)
    (hx : extract_json_from_response jl (pyStrip t) = some (JVal.obj fields)) :
    processImage jl name (Except.ok (some t)) = setKey fields "_file" (JVal.str name) ∧
    getKey (processImage jl name (Except.ok (some t))) "_file" = some (JVal.str name) ∧
    (∀ v, getKey fields "_file" = some v → v ≠ JVal.str name →
      getKey (processImage jl name (Except.ok (some t))) "_file" ≠ some v) := by
  have hrec : processImage jl name (Except.ok (some t))
      = setKey fields "_file" (JVal.str name) := by
    simp [processImage, extract_from_image_path, ht, hx]
  have hget : getKey (processImage jl name (Except.ok (some t))) "_file"
      = some (JVal.str name) := by
    rw [hrec]
    exact getKey_setKey_self fields "_file" (JVal.str name)
  refine ⟨hrec, hget, ?_⟩
  intro v _ hv hcontra
  rw [hget] at hcontra
  exact hv (Option.some.inj hcontra).symm

/-- Witness for C10: a model object that smuggles `_file: "spoof.png"` is
overwritten with the real filename. -/
theorem C10_file_key_overwritten_witness :
    getKey (ExtractBill.processImage spoofFileLoads "real.png"
      (Except.ok (some "\x7b\x7d".toList))) "_file" = some (JVal.str "real.png") :=
  (C10_file_key_overwritten spoofFileLoads "real.png" "\x7b\x7d".toList
    [("_file", JVal.str "spoof.png"), ("a", JVal.num 1)] rfl rfl).2.1

theorem charListLe_total (xs : List Char) :
    ∀ ys : List Char, charListLe xs ys = true ∨ charListLe ys xs = true := by
  induction xs with
  | nil => intro ys; left; rfl
  | cons x xs ih =>
    intro ys
    cases ys with
    | nil => right; rfl
    | cons y ys2 =>
      by_cases h1 : x.toNat < y.toNat
      · left
        simp [charListLe, h1]
      · by_cases h2 : y.toNat < x.toNat
        · right
          simp [charListLe, h2]
        · rcases ih ys2 with h | h
          · left
            simp [charListLe, h1, h2, h]
          · right
            simp [charListLe, h1, h2, h]

theorem charListLe_trans (xs : List Char) :
    ∀ ys zs : List Char, charListLe xs ys = true → charListLe ys zs = true →
    charListLe xs zs = true := by
  induction xs with
  | nil => intro ys zs _ _; rfl
  | cons x xs ih =>
    intro ys zs h1 h2
    cases ys with
    | nil => simp [charListLe] at h1
    | cons y ys2 =>
      cases zs with
      | nil => simp [charListLe] at h2
      | cons z zs2 =>
        by_cases hxy : x.toNat < y.toNat
        · by_cases hyz : y.toNat < z.toNat
          · have hxz : x.toNat < z.toNat := by omega
            simp [charListLe, hxz]
          · by_cases hzy : z.toNat < y.toNat
            · simp [charListLe, hyz, hzy] at h2
            · have hxz : x.toNat < z.toNat := by omega
              simp [charListLe, hxz]
        · by_cases hyx : y.toNat < x.toNat
          · simp [charListLe, hxy, hyx] at h1
          · by_cases hyz : y.toNat < z.toNat
            · have hxz : x.toNat < z.toNat := by omega
              simp [charListLe, hxz]
            · by_cases hzy : z.toNat < y.toNat
              · simp [charListLe, hyz, hzy] at h2
              · have hxz1 : ¬ x.toNat < z.toNat := by omega
                have hxz2 : ¬ z.toNat < x.toNat := by omega
                have hr1 : charListLe xs ys2 = true := by
                  simpa [charListLe, hxy, hyx] using h1
                have hr2 : charListLe ys2 zs2 = true := by
                  simpa [charListLe, hyz, hzy] using h2
                simp [charListLe, hxz1, hxz2, ih ys2 zs2 hr1 hr2]

theorem strLeB_total (a b : String) : strLeB a b = true ∨ strLeB b a = true :=
  charListLe_total a.data b.data

theorem strLeB_trans (a b c : String) (h1 : strLeB a b = true)
    (h2 : strLeB b c = true) : strLeB a c = true :=
  charListLe_trans a.data b.data c.data h1 h2

theorem insertSorted_perm (x : String) (l : List String) :
    (insertSorted x l).Perm (x :: l) := by
  induction l with
  | nil => exact List.Perm.refl [x]
  | cons y ys ih =>
    by_cases h : strLeB x y
    · simp [insertSorted, h]
    · simp only [insertSorted, if_neg h]
      exact (ih.cons y).trans (List.Perm.swap x y ys)

theorem insertSorted_sorted (x : String) (l : List String)
    (h : List.Pairwise (fun a b : String => strLeB a b = true) l) :
    List.Pairwise (fun a b : String => strLeB a b = true) (insertSorted x l) := by
  induction l with
  | nil => simp [insertSorted]
  | cons y ys ih =>
    rcases List.pairwise_cons.mp h with ⟨hy, hys⟩
    by_cases hxy : strLeB x y
    · simp only [insertSorted, if_pos hxy]
      refine List.pairwise_cons.mpr ⟨?_, h⟩
      intro b hb
      rcases List.mem_cons.mp hb with rfl | hb2
      · exact hxy
      · exact strLeB_trans x y b hxy (hy b hb2)
    · simp only [insertSorted, if_neg hxy]
      refine List.pairwise_cons.mpr ⟨?_, ih hys⟩
      intro b hb
      rcases List.mem_cons.mp ((insertSorted_perm x ys).mem_iff.mp hb) with hbx | hb2
      · rw [hbx]
        rcases strLeB_total x y with ht | ht
        · exact absurd ht hxy
        · exact ht
      · exact hy b hb2

theorem insertionSort_perm (l : List String) : (insertionSort l).Perm l := by
  induction l with
  | nil => exact List.Perm.refl []
  | cons x xs ih =>
    exact (insertSorted_perm x (insertionSort xs)).trans (ih.cons x)

theorem insertionSort_sorted (l : List String) :
    List.Pairwise (fun a b : String => strLeB a b = true) (insertionSort l) := by
  induction l with
  | nil => simp [insertionSort]
  | cons x xs ih => exact insertSorted_sorted x (insertionSort xs) ih

open ExtractBill in
/-- C5: the Bill Extractor processes exactly the regular files of the target
directory whose lowercased extension is a configured image extension, in
filename-sorted order; the aggregated output holds exactly one record per
image in that order, is serialized by the standard JSON serializer invoked
with non-ASCII text unescaped (`ensure_ascii=False, indent=2`), printed to
standard output, and also written to the output file when one is given. -/
theorem C5_scan_sort_aggregate (jl : List Char → Option JVal)
    (jsonDumps : Bool → Nat → List PyDict → String)
    (args : BillArgs) (w : BillWorld) (entries : List Entry)
    (hkey : keyTruthy args = true) (hgen : w.genaiAvailable = true)
    (hlist : args.listModels = false) (hdir : w.dirListing = some entries)
    (himgs : imagePaths entries ≠ [])
    (hmodel : w.modelCtor (stripModelsPfx args.model) = Except.ok ()) :
    (mainRun jl jsonDumps args w).exitCode = 0 ∧
    (mainRun jl jsonDumps args w).stdout
      = [jsonDumps false 2 ((imagePaths entries).map
          (fun n => processImage jl n (w.responses n)))] ∧
    (mainRun jl jsonDumps args w).fileWritten
      = args.output.map (fun o => (o, jsonDumps false 2 ((imagePaths entries).map
          (fun n => processImage jl n (w.responses n))))) ∧
    (mainRun jl jsonDumps args w).processedImages = imagePaths entries ∧
    ((imagePaths entries).map (fun n => processImage jl n (w.responses n))).length
      = (imagePaths entries).length ∧
    (∀ n, n ∈ imagePaths entries
      ↔ ∃ e, e ∈ entries ∧ isImageEntry e = true ∧ e.name = n) ∧
    List.Pairwise (fun a b : String => strLeB a b = true) (imagePaths entries) ∧
    (imagePaths entries).Perm ((entries.filter isImageEntry).map Entry.name) := by
  have hempty : (imagePaths entries).isEmpty = false := by
    cases h : imagePaths entries with
    | nil => exact absurd h himgs
    | cons a l => rfl
  have hperm : (imagePaths entries).Perm ((entries.filter isImageEntry).map Entry.name) :=
    insertionSort_perm ((entries.filter isImageEntry).map Entry.name)
  refine ⟨?_, ?_, ?_, ?_, ?_, ?_, ?_, hperm⟩
  · cases hout : args.output <;>
      simp [mainRun, hkey, hgen, hlist, hdir, hempty, hmodel, hout]
  · cases hout : args.output <;>
      simp [mainRun, hkey, hgen, hlist, hdir, hempty, hmodel, hout]
  · cases hout : args.output <;>
      simp [mainRun, hkey, hgen, hlist, hdir, hempty, hmodel, hout]
  · cases hout : args.output <;>
      simp [mainRun, hkey, hgen, hlist, hdir, hempty, hmodel, hout]
  · exact List.length_map _ _
  · intro n
    rw [hperm.mem_iff, List.mem_map]
    constructor
    · rintro ⟨e, he, rfl⟩
      exact ⟨e, (List.mem_filter.mp he).1, (List.mem_filter.mp he).2, rfl⟩
    · rintro ⟨e, he, hi, rfl⟩
      exact ⟨e, List.mem_filter.mpr ⟨he, hi⟩, rfl⟩
  · exact insertionSort_sorted ((entries.filter isImageEntry).map Entry.name)

/-- Witness for C5: a one-image directory is scanned and aggregated. -/
theorem C5_scan_sort_aggregate_witness :
    (ExtractBill.mainRun failLoads sampleDumps
      ⟨".", some "k", none, "gemini-1.5-flash-latest", false, none⟩
      ⟨true, some [⟨"a.png", true⟩], fun _ => Except.ok (),
        fun _ => Except.ok none, Except.ok []⟩).processedImages
      = ExtractBill.imagePaths [⟨"a.png", true⟩] :=
  (C5_scan_sort_aggregate failLoads sampleDumps
    ⟨".", some "k", none, "gemini-1.5-flash-latest", false, none⟩
    ⟨true, some [⟨"a.png", true⟩], fun _ => Except.ok (),
      fun _ => Except.ok none, Except.ok []⟩
    [⟨"a.png", true⟩] rfl rfl rfl rfl (by decide) rfl).2.2.2.1

theorem data_get5_pfx (lit rest : String) (h5 : 5 < lit.data.length) :
    (lit ++ rest).data[5]? = lit.data[5]? := by
  rw [String.data_append, List.getElem?_append_left h5]

theorem ne_of_data_get5 (s t : String) (h : ¬ s.data[5]? = t.data[5]?) :
    ¬ s = t := fun he => h (by rw [he])

theorem apiKeyErrMsg_get5 : ExtractBill.apiKeyErrMsg.data[5]? = some 'A' := by
  decide

theorem libErrMsg_get5 : ExtractBill.libErrMsg.data[5]? = some 'g' := by
  decide

theorem dirErrMsg_get5 (f : String) :
    (ExtractBill.dirErrMsg f).data[5]? = some 'フ' := by
  unfold ExtractBill.dirErrMsg
  rw [data_get5_pfx "エラー: フォルダが見つかりません: " f (by decide)]
  decide

theorem noImagesErrMsg_get5 (f : String) :
    (ExtractBill.noImagesErrMsg f).data[5]? = some '画' := by
  unfold ExtractBill.noImagesErrMsg
  rw [data_get5_pfx _ f (by decide)]
  decide

theorem modelErrMsg_get5 (n e : String) :
    (ExtractBill.modelErrMsg n e).data[5]? = some 'モ' := by
  unfold ExtractBill.modelErrMsg
  have h9 : 5 < "エラー: モデル '".data.length := by decide
  have h5b : 5 < ("エラー: モデル '" ++ n).data.length := by
    rw [String.data_append, List.length_append]
    omega
  have h5a : 5 < (("エラー: モデル '" ++ n) ++ "' が見つかりません: ").data.length := by
    rw [String.data_append, List.length_append]
    omega
  rw [data_get5_pfx _ e h5a, data_get5_pfx _ "' が見つかりません: " h5b,
    data_get5_pfx _ n h9]
  decide

open ExtractBill in
/-- C6: each fatal precondition of the Bill Extractor — missing credential,
missing client library, missing/invalid target directory, no matching
images, unresolvable model name — terminates the run with exit status 1 and
its own distinct diagnostic on standard error, before any per-image
processing and with no result output; the no-matching-images diagnostic
names the expected extensions. -/
theorem C6_fatal_preconditions (jl : List Char → Option JVal)
    (jsonDumps : Bool → Nat → List PyDict → String)
    (args : BillArgs) (w : BillWorld) :
    (keyTruthy args = false →
      mainRun jl jsonDumps args w = ⟨1, [apiKeyErrMsg], [], none, []⟩) ∧
    (keyTruthy args = true → w.genaiAvailable = false →
      mainRun jl jsonDumps args w = ⟨1, [libErrMsg], [], none, []⟩) ∧
    (keyTruthy args = true → w.genaiAvailable = true → args.listModels = false →
      w.dirListing = none →
      mainRun jl jsonDumps args w = ⟨1, [dirErrMsg args.folder], [], none, []⟩) ∧
    (∀ entries, keyTruthy args = true → w.genaiAvailable = true →
      args.listModels = false → w.dirListing = some entries →
      imagePaths entries = [] →
      mainRun jl jsonDumps args w = ⟨1, [noImagesErrMsg args.folder], [], none, []⟩) ∧
    (∀ entries e, keyTruthy args = true → w.genaiAvailable = true →
      args.listModels = false → w.dirListing = some entries →
      imagePaths entries ≠ [] →
      w.modelCtor (stripModelsPfx args.model) = Except.error e →
      mainRun jl jsonDumps args w
        = ⟨1, [modelErrMsg (stripModelsPfx args.model) e, modelHintMsg], [], none, []⟩) ∧
    (∀ f f2 n e, ¬ apiKeyErrMsg = libErrMsg ∧ ¬ apiKeyErrMsg = dirErrMsg f ∧
      ¬ apiKeyErrMsg = noImagesErrMsg f ∧ ¬ apiKeyErrMsg = modelErrMsg n e ∧
      ¬ libErrMsg = dirErrMsg f ∧ ¬ libErrMsg = noImagesErrMsg f ∧
      ¬ libErrMsg = modelErrMsg n e ∧ ¬ dirErrMsg f = noImagesErrMsg f2 ∧
      ¬ dirErrMsg f = modelErrMsg n e ∧ ¬ noImagesErrMsg f = modelErrMsg n e) ∧
    (∀ f ext, ext ∈ IMAGE_EXTENSIONS →
      List.IsInfix ext.data (noImagesErrMsg f).data) := by
  refine ⟨?_, ?_, ?_, ?_, ?_, ?_, ?_⟩
  · intro h
    simp [mainRun, h]
  · intro h1 h2
    simp [mainRun, h1, h2]
  · intro h1 h2 h3 h4
    simp [mainRun, h1, h2, h3, h4]
  · intro entries h1 h2 h3 h4 h5
    have hempty : (imagePaths entries).isEmpty = true := by
      rw [h5]
      rfl
    simp [mainRun, h1, h2, h3, h4, hempty]
  · intro entries e h1 h2 h3 h4 h5 h6
    have hempty : (imagePaths entries).isEmpty = false := by
      cases h : imagePaths entries with
      | nil => exact absurd h h5
      | cons a l => rfl
    simp [mainRun, h1, h2, h3, h4, hempty, h6]
  · intro f f2 n e
    refine ⟨?_, ?_, ?_, ?_, ?_, ?_, ?_, ?_, ?_, ?_⟩ <;>
      apply ne_of_data_get5 <;>
      simp only [apiKeyErrMsg_get5, libErrMsg_get5, dirErrMsg_get5,
        noImagesErrMsg_get5, modelErrMsg_get5] <;>
      decide
  · intro f ext hext
    have hwhole : List.IsInfix (joinCommaSpace IMAGE_EXTENSIONS).data
        ((noImagesErrMsg f).data) := by
      refine ⟨"エラー: 画像ファイル（".data, ("）がありません: " ++ f).data, ?_⟩
      simp [noImagesErrMsg, String.data_append, List.append_assoc]
    have hJ : List.IsInfix ext.data (joinCommaSpace IMAGE_EXTENSIONS).data := by
      fin_cases hext <;> decide
    exact hJ.trans hwhole

/-- Witness for C6: a run with no credential, and a run whose directory has
no matching image, each fail fatally with their diagnostics. -/
theorem C6_fatal_preconditions_witness :
    ExtractBill.mainRun failLoads sampleDumps
      ⟨".", none, none, "gemini-1.5-flash-latest", false, none⟩
      ⟨true, some [], fun _ => Except.ok (), fun _ => Except.ok none, Except.ok []⟩
      = ⟨1, [ExtractBill.apiKeyErrMsg], [], none, []⟩ ∧
    ExtractBill.mainRun failLoads sampleDumps
      ⟨"/tmp/pics", some "k", none, "gemini-1.5-flash-latest", false, none⟩
      ⟨true, some [⟨"notes.txt", true⟩], fun _ => Except.ok (),
        fun _ => Except.ok none, Except.ok []⟩
      = ⟨1, [ExtractBill.noImagesErrMsg "/tmp/pics"], [], none, []⟩ := by
  constructor
  · exact (C6_fatal_preconditions failLoads sampleDumps
      ⟨".", none, none, "gemini-1.5-flash-latest", false, none⟩
      ⟨true, some [], fun _ => Except.ok (), fun _ => Except.ok none,
        Except.ok []⟩).1 rfl
  · exact (C6_fatal_preconditions failLoads sampleDumps
      ⟨"/tmp/pics", some "k", none, "gemini-1.5-flash-latest", false, none⟩
      ⟨true, some [⟨"notes.txt", true⟩], fun _ => Except.ok (),
        fun _ => Except.ok none, Except.ok []⟩).2.2.2.1
      [⟨"notes.txt", true⟩] rfl rfl rfl rfl (by decide)

open ExtractBill in
/-- C7: in the per-image loop any exception (decode, API call, parse/record
construction) is caught and converted into an error record carrying the
filename and the exception message; the loop still yields exactly one record
per image, in order, each produced by a single attempt on that image's own
input, and the run completes normally. -/
theorem C7_per_image_isolation (jl : List Char → Option JVal)
    (jsonDumps : Bool → Nat → List PyDict → String)
    (args : BillArgs) (w : BillWorld) (entries : List Entry)
    (hkey : keyTruthy args = true) (hgen : w.genaiAvailable = true)
    (hlist : args.listModels = false) (hdir : w.dirListing = some entries)
    (himgs : imagePaths entries ≠ [])
    (hmodel : w.modelCtor (stripModelsPfx args.model) = Except.ok ()) :
    (∀ nm e, processImage jl nm (Except.error e)
      = [("_file", JVal.str nm), ("_error", JVal.str e)]) ∧
    (mainRun jl jsonDumps args w).exitCode = 0 ∧
    ((imagePaths entries).map (fun n => processImage jl n (w.responses n))).length
      = (imagePaths entries).length ∧
    (∀ i (h : i < (imagePaths entries).length)
      (h2 : i < ((imagePaths entries).map
        (fun n => processImage jl n (w.responses n))).length),
      ((imagePaths entries).map (fun n => processImage jl n (w.responses n))).get ⟨i, h2⟩
        = processImage jl ((imagePaths entries).get ⟨i, h⟩)
            (w.responses ((imagePaths entries).get ⟨i, h⟩))) ∧
    (mainRun jl jsonDumps args w).stdout
      = [jsonDumps false 2 ((imagePaths entries).map
          (fun n => processImage jl n (w.responses n)))] := by
  have hempty : (imagePaths entries).isEmpty = false := by
    cases h : imagePaths entries with
    | nil => exact absurd h himgs
    | cons a l => rfl
  refine ⟨?_, ?_, List.length_map _ _, ?_, ?_⟩
  · intro nm e
    rfl
  · cases hout : args.output <;>
      simp [mainRun, hkey, hgen, hlist, hdir, hempty, hmodel, hout]
  · intro i h h2
    simp [List.getElem_map]
  · cases hout : args.output <;>
      simp [mainRun, hkey, hgen, hlist, hdir, hempty, hmodel, hout]

/-- Witness for C7: a two-image run in which every API call raises still
completes with one error record per image. -/
theorem C7_per_image_isolation_witness :
    ExtractBill.processImage failLoads "a.png" (Except.error "network down")
      = [("_file", JVal.str "a.png"), ("_error", JVal.str "network down")] ∧
    (ExtractBill.mainRun failLoads sampleDumps
      ⟨".", some "k", none, "m", false, none⟩
      ⟨true, some [⟨"a.png", true⟩, ⟨"b.jpg", true⟩], fun _ => Except.ok (),
        fun _ => Except.error "network down", Except.ok []⟩).exitCode = 0 := by
  constructor
  · exact (C7_per_image_isolation failLoads sampleDumps
      ⟨".", some "k", none, "m", false, none⟩
      ⟨true, some [⟨"a.png", true⟩, ⟨"b.jpg", true⟩], fun _ => Except.ok (),
        fun _ => Except.error "network down", Except.ok []⟩
      [⟨"a.png", true⟩, ⟨"b.jpg", true⟩]
      rfl rfl rfl rfl (by decide) rfl).1 "a.png" "network down"
  · exact (C7_per_image_isolation failLoads sampleDumps
      ⟨".", some "k", none, "m", false, none⟩
      ⟨true, some [⟨"a.png", true⟩, ⟨"b.jpg", true⟩], fun _ => Except.ok (),
        fun _ => Except.error "network down", Except.ok []⟩
      [⟨"a.png", true⟩, ⟨"b.jpg", true⟩]
      rfl rfl rfl rfl (by decide) rfl).2.1

open ArchiveDesktop in
/-- C2: for a matching source file and a set of existing destination names,
the file's own name is used when free; otherwise the destination is
`stem_N.ext` for the least N ≥ 1 whose candidate is free (all smaller
numbered candidates being taken); the chosen name never collides with an
existing destination file, and the choice depends only on the membership of
the existing-name set. -/
theorem C2_collision_resolution (existing : List String) (name stem suffix : String) :
    (name ∉ existing → chooseDestName existing name stem suffix = name) ∧
    (name ∈ existing → ∃ N, 1 ≤ N ∧
      chooseDestName existing name stem suffix = candName stem suffix N ∧
      candName stem suffix N ∉ existing ∧
      (∀ m, 1 ≤ m → m < N → candName stem suffix m ∈ existing)) ∧
    chooseDestName existing name stem suffix ∉ existing ∧
    (∀ existing2, (∀ s, s ∈ existing ↔ s ∈ existing2) →
      chooseDestName existing name stem suffix
        = chooseDestName existing2 name stem suffix) := by
  refine ⟨?_, ?_, ?_, ?_⟩
  · intro h
    simp [chooseDestName, h]
  · intro h
    refine ⟨Nat.find (exists_free_cand existing stem suffix) + 1, by omega, ?_, ?_, ?_⟩
    · simp [chooseDestName, h]
    · exact Nat.find_spec (exists_free_cand existing stem suffix)
    · intro m h1 h2
      obtain ⟨k, rfl⟩ : ∃ k, m = k + 1 := ⟨m - 1, by omega⟩
      have hk : k < Nat.find (exists_free_cand existing stem suffix) := by omega
      have := Nat.find_min (exists_free_cand existing stem suffix) hk
      exact not_not.mp this
  · by_cases h : name ∈ existing
    · simp only [chooseDestName, if_pos h]
      exact Nat.find_spec (exists_free_cand existing stem suffix)
    · simp only [chooseDestName, if_neg h]
      exact h
  · intro existing2 hiff
    by_cases h : name ∈ existing
    · have h2 : name ∈ existing2 := (hiff name).mp h
      have hfind : Nat.find (exists_free_cand existing stem suffix)
          = Nat.find (exists_free_cand existing2 stem suffix) := by
        apply le_antisymm
        · apply Nat.find_min'
          intro hmem
          exact Nat.find_spec (exists_free_cand existing2 stem suffix)
            ((hiff _).mp hmem)
        · apply Nat.find_min'
          intro hmem
          exact Nat.find_spec (exists_free_cand existing stem suffix)
            ((hiff _).mpr hmem)
      simp only [chooseDestName, if_pos h, if_pos h2, hfind]
    · have h2 : name ∉ existing2 := fun hc => h ((hiff name).mpr hc)
      simp only [chooseDestName, if_neg h, if_neg h2]

/-- Witness for C2: with `a.png` and `a_1.png` already present, the name
`a.png` collides and a fresh numbered candidate is chosen; a free name is
kept unchanged. -/
theorem C2_collision_resolution_witness :
    ArchiveDesktop.chooseDestName [] "a.png" "a" ".png" = "a.png" ∧
    ArchiveDesktop.chooseDestName ["a.png", "a_1.png"] "a.png" "a" ".png"
      ∉ ["a.png", "a_1.png"] := by
  constructor
  · exact (C2_collision_resolution [] "a.png" "a" ".png").1 (by decide)
  · exact (C2_collision_resolution ["a.png", "a_1.png"] "a.png" "a" ".png").2.2.1

/-- C8: the Desktop Archiver exits 0 whenever the source directory exists
and the scan completes — for any listing, any initial archive contents and
any per-move outcomes, including zero moves and failing moves — and exits 1
exactly when the source directory is missing. -/
theorem C8_archiver_exit_codes (entries : List Entry) (existing : List String)
    (date : String) (moveRes : String → String → Except String Unit) :
    (ArchiveDesktop.archiverRun true entries existing date moveRes).exitCode = 0 ∧
    (ArchiveDesktop.archiverRun false entries existing date moveRes).exitCode = 1 := by
  constructor
  · simp [ArchiveDesktop.archiverRun]
  · simp [ArchiveDesktop.archiverRun]

open ArchiveDesktop in
theorem archiver_moves_src (a : String) (m : String → String → Except String Unit) :
    ∀ (entries : List Entry) (st : ArchState) (pr : String × String),
    pr ∈ (entries.foldl (archStep a m) st).moves →
    pr ∈ st.moves ∨ ∃ e, e ∈ entries ∧ matchesArchive e = true ∧ pr.1 = e.name := by
  intro entries
  induction entries with
  | nil =>
    intro st pr h
    exact Or.inl h
  | cons e rest ih =>
    intro st pr h
    rw [List.foldl_cons] at h
    rcases ih (archStep a m st e) pr h with hin | ⟨e2, he2, hm2, hn2⟩
    · by_cases h1 : e.isFile
      · by_cases h2 : IMAGE_EXTENSIONS.contains (lowerStr (pySuffix e.name))
        · cases hmv : m e.name (chooseDestName st.existing e.name (pyStem e.name)
              (pySuffix e.name)) with
          | ok u =>
            simp only [archStep, h1, Bool.not_true, Bool.false_eq_true, if_false,
              h2, if_true, hmv] at hin
            rcases List.mem_append.mp hin with hin2 | hin2
            · exact Or.inl hin2
            · have hpr : pr = (e.name, chooseDestName st.existing e.name
                  (pyStem e.name) (pySuffix e.name)) := by
                simpa using hin2
              refine Or.inr ⟨e, by simp, ?_, by rw [hpr]⟩
              simp only [matchesArchive, h1, Bool.true_and]
              exact h2
          | error err =>
            simp only [archStep, h1, Bool.not_true, Bool.false_eq_true, if_false,
              h2, if_true, hmv] at hin
            exact Or.inl hin
        · simp only [archStep, h1, Bool.not_true, Bool.false_eq_true, if_false,
            h2, if_false] at hin
          exact Or.inl hin
      · have h1' : (!e.isFile) = true := by simp [h1]
        simp only [archStep, h1', if_true] at hin
        exact Or.inl hin
    · exact Or.inr ⟨e2, by simp [he2], hm2, hn2⟩

open ArchiveDesktop in
/-- C9: the archiver's scan is shallow and frame-preserving: every move's
source is a matching regular image file of the (shallow) source listing,
and an entry that is not a regular file with a matching extension is never
the source of a move. -/
theorem C9_shallow_frame (entries : List Entry) (existing : List String)
    (date : String) (moveRes : String → String → Except String Unit) :
    (∀ pr, pr ∈ (archiverRun true entries existing date moveRes).moves →
      ∃ e, e ∈ entries ∧ matchesArchive e = true ∧ pr.1 = e.name) ∧
    ((entries.map Entry.name).Nodup →
      ∀ e, e ∈ entries → matchesArchive e = false →
      ∀ pr, pr ∈ (archiverRun true entries existing date moveRes).moves →
        ¬ pr.1 = e.name) := by
  have hrun : (archiverRun true entries existing date moveRes).moves
      = (entries.foldl (archStep (archiveFolderName date) moveRes)
          ⟨existing, [], [], 0, []⟩).moves := by
    simp [archiverRun]
  have hsrc : ∀ pr, pr ∈ (archiverRun true entries existing date moveRes).moves →
      ∃ e, e ∈ entries ∧ matchesArchive e = true ∧ pr.1 = e.name := by
    intro pr hpr
    rw [hrun] at hpr
    rcases archiver_moves_src (archiveFolderName date) moveRes entries
        ⟨existing, [], [], 0, []⟩ pr hpr with hin | hgood
    · simp at hin
    · exact hgood
  refine ⟨hsrc, ?_⟩
  intro hnodup e he hnom pr hpr heq
  rcases hsrc pr hpr with ⟨e2, he2, hm2, hn2⟩
  have : e2 = e := List.inj_on_of_nodup_map hnodup he2 he (by rw [← hn2, heq])
  rw [this] at hm2
  rw [hm2] at hnom
  exact Bool.noConfusion hnom

/-- Witness for C9: in a listing holding a subdirectory, a text file and one
image, no move has the text file as its source. -/
theorem C9_shallow_frame_witness :
    ¬ (("a.png", "a.png") : String × String).1 = "b.txt" :=
  (C9_shallow_frame [⟨"sub", false⟩, ⟨"b.txt", true⟩, ⟨"a.png", true⟩] []
    "2026-02-17" (fun _ _ => Except.ok ())).2 (by decide) ⟨"b.txt", true⟩
    (by decide) rfl ("a.png", "a.png") (by decide)
